import Mathlib

/-!
Verification of `tetrisrun`, a terminal input driver for a Whitespace
Tetris game.  The program has two cooperating loops: an input forwarder
that translates raw keystrokes (`readKey`) and writes canonical command
bytes downstream, and a gravity driver that emits a periodic drop
command with an accelerating timer.  This file gives a shallow embedding
of the program's pure logic — the drop-rate schedule, the key
translator, the output writer's error classification, and the two loop
state machines — and proves the specified properties about them.
-/

namespace Tetrisrun

/-- A raw byte (Go `byte`), as a natural number. -/
abbrev Byte := Nat

/-! ## Constants from the source

Go `time.Duration` counts nanoseconds, so all durations are modelled in
nanoseconds: `escTimeout = 100 * time.Millisecond`,
`initialDropRate = 1000 * time.Millisecond`,
`finalDropRate = 400 * time.Microsecond`,
`dropRateDelta = 1 * time.Millisecond`. -/

def escTimeout : Nat := 100000000

def initialDropRate : Nat := 1000000000

def finalDropRate : Nat := 400000

def dropRateDelta : Nat := 1000000

/-! ## Gravity drop-rate schedule

After each successful drop emission the `Drop` loop runs
`if dropRate > finalDropRate { dropRate -= dropRateDelta }`. -/

/-- The drop-rate update performed after one successful gravity tick. -/
def dropStep (dropRate : Nat) : Nat :=
  if finalDropRate < dropRate then dropRate - dropRateDelta else dropRate

/-- The drop rate (in nanoseconds) after `n` successful gravity ticks
with no pause, starting from `initialDropRate`. -/
def dropRateAfter : Nat → Nat
  | 0 => initialDropRate
  | n + 1 => dropStep (dropRateAfter n)

/-- Closed form of the drop-rate schedule: the rate decreases by 1 ms per
tick for 1000 ticks and then sticks at 0 ns — not at `finalDropRate`. -/
theorem dropRateAfter_closed (n : Nat) :
    dropRateAfter n = 1000000000 - 1000000 * min n 1000 := by
  induction n with
  | zero => simp [dropRateAfter, initialDropRate]
  | succ n ih =>
    rw [dropRateAfter, ih]
    simp only [dropStep, finalDropRate, dropRateDelta]
    split <;> omega

/-- C1: the claimed schedule `max(1000 − N, 0.4)` ms fails at N = 1000: the
code's guard `dropRate > finalDropRate` does not clamp the subtraction, so
from 1 ms the rate drops to 0 ns, strictly below the 0.4 ms floor, and the
interval `finalDropRate` is never attained.  After 999 ticks the rate is
1 ms as claimed, but the next successful tick drives it to 0. -/
theorem C1_drop_rate_underflows_floor :
    dropRateAfter 999 = 1000000 ∧
    dropRateAfter 1000 = 0 ∧
    dropRateAfter 1000 < finalDropRate := by
  refine ⟨?_, ?_, ?_⟩ <;> simp [dropRateAfter_closed, finalDropRate]

/-! ## The input stream

`readKey` performs blocking single-byte reads from stdin.  We model the
input as a list of events: `byte b` is the arrival of a raw byte, and
`timeout` marks `escTimeout` (100 ms) elapsing with no byte available —
meaningful only while the escape-disambiguation race is pending; a plain
blocking read simply waits through it.  The end of the list models the
read failing (end of input or read error, both of which `readKey`
propagates as a failure and `main` treats as quit). -/

inductive InEv where
  | byte (b : Byte)
  | timeout
  deriving DecidableEq, Repr

/-- A blocking `stdin.ReadByte`: waits through timeouts, returns the next
byte, and fails at end of input. -/
def readByte : List InEv → Option (Byte × List InEv)
  | [] => none
  | .timeout :: rest => readByte rest
  | .byte b :: rest => some (b, rest)

theorem readByte_length {l rest : List InEv} {b : Byte}
    (h : readByte l = some (b, rest)) : rest.length < l.length := by
  induction l with
  | nil => simp [readByte] at h
  | cons e l ih =>
    cases e with
    | byte b' =>
      simp only [readByte, Option.some.injEq, Prod.mk.injEq] at h
      simp [← h.2]
    | timeout =>
      simp only [readByte] at h
      exact Nat.lt_trans (ih h) (by simp)

/-- The private sub-loop of the `'p', ' '` case: re-read raw bytes,
discarding them, until another `p` or space arrives; fail if a read
fails. -/
def discardUntilPause : List InEv → Option (List InEv)
  | [] => none
  | .timeout :: rest => discardUntilPause rest
  | .byte b :: rest =>
    if b = 112 ∨ b = 32 then some rest else discardUntilPause rest

theorem discardUntilPause_length {l rest : List InEv}
    (h : discardUntilPause l = some rest) : rest.length < l.length := by
  induction l with
  | nil => simp [discardUntilPause] at h
  | cons e l ih =>
    cases e with
    | byte b =>
      simp only [discardUntilPause] at h
      split at h
      · simp only [Option.some.injEq] at h
        simp [← h]
      · exact Nat.lt_trans (ih h) (by simp)
    | timeout =>
      simp only [discardUntilPause] at h
      exact Nat.lt_trans (ih h) (by simp)

/-- The outcome of one `readKey()` call: `sigs` is the sequence of sends
on the `pause` channel (`true` = enter pause, `false` = exit pause), and
`res` is `some (key, rest)` on success or `none` when `readKey` returns
an error (its caller treats every error as quit). -/
structure KeyResult where
  sigs : List Bool
  res : Option (Byte × List InEv)
  deriving DecidableEq, Repr

/-- The ESC (`'\x1b'`) case of `readKey`.  After ESC arrives, a spawned
read of the next byte races the `escTimeout` timer; the head event of
the remaining stream decides the race.  An empty stream (the concurrent
read fails at once) or a leading `timeout` yields the lone-ESC quit
path, `⟨[], none⟩`.  Otherwise the byte must be `[` (91); then a further
blocking read maps `A B C D` to the arrow commands, and any other
trailing byte falls out of the inner switch, continuing the main loop on
the remaining stream (`Sum.inr`). -/
def escResult : List InEv → KeyResult ⊕ List InEv
  | [] => .inl ⟨[], none⟩
  | .timeout :: _ => .inl ⟨[], none⟩
  | .byte b2 :: rest2 =>
    if b2 = 91 then
      match readByte rest2 with
      | none => .inl ⟨[], none⟩
      | some (b3, rest3) =>
        if b3 = 65 then .inl ⟨[], some (105, rest3)⟩
        else if b3 = 66 then .inl ⟨[], some (107, rest3)⟩
        else if b3 = 67 then .inl ⟨[], some (108, rest3)⟩
        else if b3 = 68 then .inl ⟨[], some (106, rest3)⟩
        else .inr rest3
    else .inl ⟨[], none⟩

theorem escResult_inr_length {l rest : List InEv}
    (h : escResult l = .inr rest) : rest.length < l.length := by
  match l with
  | [] => simp [escResult] at h
  | .timeout :: l' => simp [escResult] at h
  | .byte b2 :: rest2 =>
    simp only [escResult] at h
    split at h
    · split at h
      · simp at h
      · rename_i b3 rest3 hr
        have hlen := readByte_length hr
        split at h
        · simp at h
        · split at h
          · simp at h
          · split at h
            · simp at h
            · split at h
              · simp at h
              · simp only [Sum.inr.injEq] at h
                subst h
                simp
                omega
    · simp at h

theorem escResult_inl_res_length {l rest : List InEv} {k : Byte} {s : List Bool}
    (h : escResult l = .inl ⟨s, some (k, rest)⟩) :
    rest.length < l.length ∧ (k = 105 ∨ k = 106 ∨ k = 107 ∨ k = 108) := by
  match l with
  | [] => simp [escResult] at h
  | .timeout :: l' => simp [escResult] at h
  | .byte b2 :: rest2 =>
    simp only [escResult] at h
    split at h
    · split at h
      · simp at h
      · rename_i b3 rest3 hr
        have hlen := readByte_length hr
        split at h
        · simp at h
          obtain ⟨-, hk, hr3⟩ := h
          subst hr3
          exact ⟨by simp; omega, Or.inl hk.symm⟩
        · split at h
          · simp at h
            obtain ⟨-, hk, hr3⟩ := h
            subst hr3
            exact ⟨by simp; omega, Or.inr (Or.inr (Or.inl hk.symm))⟩
          · split at h
            · simp at h
              obtain ⟨-, hk, hr3⟩ := h
              subst hr3
              exact ⟨by simp; omega, Or.inr (Or.inr (Or.inr hk.symm))⟩
            · split at h
              · simp at h
                obtain ⟨-, hk, hr3⟩ := h
                subst hr3
                exact ⟨by simp; omega, Or.inr (Or.inl hk.symm)⟩
              · simp at h
    · simp at h

/-- `readKey` from the source.  Byte codes: `i`=105, `w`=119, `j`=106,
`a`=97, `k`=107, `s`=115, `l`=108, `d`=100, `q`=113, `p`=112, space=32,
ESC=27. -/
def readKey : List InEv → KeyResult
  | [] => ⟨[], none⟩
  | .timeout :: rest => readKey rest
  | .byte b :: rest =>
    if b = 105 ∨ b = 119 then ⟨[], some (105, rest)⟩
    else if b = 106 ∨ b = 97 then ⟨[], some (106, rest)⟩
    else if b = 107 ∨ b = 115 then ⟨[], some (107, rest)⟩
    else if b = 108 ∨ b = 100 then ⟨[], some (108, rest)⟩
    else if b = 113 ∨ b = 0 ∨ b = 3 ∨ b = 4 ∨ b = 26 then ⟨[], none⟩
    else if b = 112 ∨ b = 32 then
      match h : discardUntilPause rest with
      | none => ⟨[true], none⟩
      | some rest' =>
        let r := readKey rest'
        ⟨true :: false :: r.sigs, r.res⟩
    else if b = 27 then
      match h2 : escResult rest with
      | .inl r => r
      | .inr rest3 => readKey rest3
    else readKey rest
termination_by l => l.length
decreasing_by
  · simp
  · exact Nat.lt_trans (discardUntilPause_length h) (by simp)
  · exact Nat.lt_trans (escResult_inr_length h2) (by simp)
  · simp

/-- Whenever `readKey` succeeds, it consumed at least one input event and
its result byte is one of the four canonical commands `i j k l`. -/
theorem readKey_res_spec (l : List InEv) :
    ∀ ⦃k : Byte⦄ ⦃rest : List InEv⦄, (readKey l).res = some (k, rest) →
      rest.length < l.length ∧ (k = 105 ∨ k = 106 ∨ k = 107 ∨ k = 108) := by
  induction l using readKey.induct <;> intro k rest h <;> simp_all [readKey]
  case case2 r ih => omega
  case case12 b r h1 h2 h3 h4 h5 h6 h7 ih => omega
  case case8 b r h1 h2 h3 h4 h5 hb hd =>
    split at h
    · simp at h
    · simp_all
  case case9 b r r' h1 h2 h3 h4 h5 hb hd ih =>
    split at h
    · simp at h
    · rename_i r'' heq
      rw [hd] at heq
      obtain ⟨rfl⟩ : r' = r'' := by simpa using heq
      simp only at h
      have hspec := ih h
      have hlen := discardUntilPause_length hd
      exact ⟨by omega, hspec.2⟩
  case case10 r rr h2 =>
    split at h
    · rename_i r' heq
      obtain ⟨s, res⟩ := r'
      simp only at h
      subst h
      have hspec := escResult_inl_res_length heq
      exact ⟨by omega, hspec.2⟩
    · rename_i rest3 heq
      rw [h2] at heq
      simp at heq
  case case11 r rest3 h2 ih =>
    split at h
    · rename_i r' heq
      rw [h2] at heq
      simp at heq
    · rename_i rest3' heq
      rw [h2] at heq
      obtain ⟨rfl⟩ : rest3 = rest3' := by simpa using heq
      have hspec := ih h
      have hlen := escResult_inr_length h2
      exact ⟨by omega, hspec.2⟩

/-! ## The output writer

`writeByte` writes one byte to stdout.  In Go a broken-pipe write
failure surfaces as an `*os.PathError` wrapping `syscall.EPIPE`; the
source logs the error to stderr unless it has exactly that shape
(`if pe, ok := err.(*os.PathError); !ok || pe.Err != syscall.EPIPE`),
then sends on `done` and returns false. -/

/-- The error of a failed single-byte write: an `*os.PathError` wrapping
some errno, or any other error value. -/
inductive WriteErr where
  | pathError (errno : Nat)
  | other
  deriving DecidableEq, Repr

/-- `syscall.EPIPE` on Linux. -/
def EPIPE : Nat := 32

/-- `writeByte` from the source, abstracted over the outcome of the
one-byte `os.Stdout.Write` (`none` = the write succeeded).  The triple
is `(returned value, logged to stderr, sent on done)`. -/
def writeByte : Option WriteErr → Bool × Bool × Bool
  | none => (true, false, false)
  | some e =>
    let logged : Bool :=
      match e with
      | .pathError errno => errno != EPIPE
      | .other => true
    (false, logged, true)

/-! ## The two loops as state machines

`main` runs two loops: the key-forwarding goroutine and the `Drop`
gravity loop.  Each loop iteration reacts to one event; the channels
`pause` and `done` are unbuffered, so an event is an observed
rendezvous. -/

/-- States of the gravity (`Drop`) loop: `Ticking r` is the main
`select` with drop rate `r`; `Paused r` is the inner `<-pause` wait of
the `case <-pause:` arm; `Stopped` is after `break Drop`. -/
inductive GState where
  | Ticking (dropRate : Nat)
  | Paused (dropRate : Nat)
  | Stopped
  deriving DecidableEq, Repr

/-- Events a gravity-loop iteration can react to: the drop timer firing
(carrying the outcome of the ensuing write of `'k'`), a send on the
`pause` channel, and a send on the `done` channel. -/
inductive GEvent where
  | timerFired (w : Option WriteErr)
  | pauseSignal
  | doneSignal
  deriving DecidableEq, Repr

/-- One iteration of the `Drop` loop, returning the new state and the
byte delivered downstream (if any).  In `Ticking` the `select` covers
the timer, `pause`, and `done`; on a timer tick it writes `'k'` (107),
breaking the loop if the write fails and otherwise applying `dropStep`.
In `Paused` the loop blocks solely on the second `<-pause`, so neither
the timer nor the `done` channel is observed there: those events leave
the state unchanged and deliver nothing. -/
def gravityStep : GState → GEvent → GState × Option Byte
  | .Ticking r, .timerFired w =>
    if (writeByte w).1 then (.Ticking (dropStep r), some 107)
    else (.Stopped, none)
  | .Ticking r, .pauseSignal => (.Paused r, none)
  | .Ticking _, .doneSignal => (.Stopped, none)
  | .Paused r, .pauseSignal => (.Ticking r, none)
  | .Paused r, .timerFired _ => (.Paused r, none)
  | .Paused r, .doneSignal => (.Paused r, none)
  | .Stopped, _ => (.Stopped, none)

/-- States of the key-forwarding goroutine. -/
inductive FState where
  | Running
  | Stopped
  deriving DecidableEq, Repr

/-- Events of one iteration of the forwarding goroutine: `readKey`
succeeded with key `b` and the write of `b` had outcome `w`; `readKey`
failed and the best-effort final ESC write had outcome `w`; or the
`select` received a send on `done`. -/
inductive FEvent where
  | keyRead (b : Byte) (w : Option WriteErr)
  | readFailed (w : Option WriteErr)
  | doneSignal
  deriving DecidableEq, Repr

/-- One iteration of the forwarding goroutine, returning the new state,
the byte delivered downstream (if any), and whether the iteration itself
sent on `done` (the `done <- true` after the final ESC write; a failing
`writeByte` additionally sends on `done` itself, reported in its own
triple).  On `readFailed` the result of the ESC write is ignored: the
goroutine stops and signals `done` either way. -/
def forwarderStep : FState → FEvent → FState × Option Byte × Bool
  | .Running, .keyRead b w =>
    if (writeByte w).1 then (.Running, some b, false)
    else (.Stopped, none, false)
  | .Running, .readFailed w =>
    (.Stopped, if (writeByte w).1 then some 27 else none, true)
  | .Running, .doneSignal => (.Stopped, none, false)
  | .Stopped, _ => (.Stopped, none, false)

/-- The full run of the forwarding goroutine over an input stream, under
the assumption that every write succeeds: the list of bytes it emits and
whether it signalled `done`.  Each iteration forwards the translated
key; when `readKey` fails, the goroutine writes the final ESC (27),
sends on `done`, and returns. -/
def runForwarder (input : List InEv) : List Byte × Bool :=
  match h : (readKey input).res with
  | none => ([27], true)
  | some (k, rest) =>
    let r := runForwarder rest
    (k :: r.1, r.2)
termination_by input.length
decreasing_by exact (readKey_res_spec input h).1

/-- The five-byte command alphabet on the wire (§6):
`i`, `j`, `k`, `l`, ESC. -/
def wireAlphabet (b : Byte) : Bool :=
  b == 105 || b == 106 || b == 107 || b == 108 || b == 27

/-- Whether a step's delivered byte (if any) is in the wire alphabet. -/
def emitOK : Option Byte → Bool
  | none => true
  | some b => wireAlphabet b

theorem runForwarder_spec (input : List InEv) :
    (runForwarder input).1.all wireAlphabet = true ∧
    (runForwarder input).2 = true ∧
    (runForwarder input).1.getLast? = some 27 := by
  induction input using runForwarder.induct with
  | case1 l h =>
    rw [runForwarder]
    split
    · simp [wireAlphabet]
    · rename_i k rest heq
      rw [h] at heq
      cases heq
  | case2 l k rest h ih =>
    rw [runForwarder]
    split
    · rename_i heq
      rw [h] at heq
      cases heq
    · rename_i k' rest' heq
      rw [h] at heq
      obtain ⟨rfl, rfl⟩ : k = k' ∧ rest = rest' := by simpa using heq
      have hk := (readKey_res_spec l h).2
      refine ⟨?_, ih.2.1, ?_⟩
      · simp only [List.all_cons, ih.1, Bool.and_true]
        rcases hk with rfl | rfl | rfl | rfl <;> simp [wireAlphabet]
      · have hne : (runForwarder rest).1 ≠ [] := by
          intro hnil
          have h27 := ih.2.2
          simp [hnil] at h27
        simp [List.getLast?_cons, hne, ih.2.2]

/-! ## The pause sub-loop -/

/-- An input event that does not end the pause sub-loop: a timeout, or
any byte other than `p` (112) and space (32). -/
def nonPauseEv : InEv → Prop
  | .timeout => True
  | .byte b => ¬(b = 112 ∨ b = 32)

theorem discardUntilPause_append {mid : List InEv}
    (hmid : ∀ e ∈ mid, nonPauseEv e) {p : Byte} (hp : p = 112 ∨ p = 32)
    (rest : List InEv) :
    discardUntilPause (mid ++ .byte p :: rest) = some rest := by
  induction mid with
  | nil => simp [discardUntilPause, hp]
  | cons e mid ih =>
    have he := hmid e (by simp)
    have hmid' : ∀ e ∈ mid, nonPauseEv e := fun e hm => hmid e (by simp [hm])
    cases e with
    | timeout => simpa [discardUntilPause] using ih hmid'
    | byte b =>
      simp only [nonPauseEv] at he
      simpa [discardUntilPause, he] using ih hmid'

theorem discardUntilPause_none {mid : List InEv}
    (hmid : ∀ e ∈ mid, nonPauseEv e) :
    discardUntilPause mid = none := by
  induction mid with
  | nil => rfl
  | cons e mid ih =>
    have he := hmid e (by simp)
    have hmid' : ∀ e ∈ mid, nonPauseEv e := fun e hm => hmid e (by simp [hm])
    cases e with
    | timeout => simpa [discardUntilPause] using ih hmid'
    | byte b =>
      simp only [nonPauseEv] at he
      simpa [discardUntilPause, he] using ih hmid'

/-! ## Claims -/

/-- C2, counterexample: the claim says the Gravity Driver transitions to
`Stopped` immediately upon observing the shutdown signal in any of its
states, Paused included.  In the code the paused loop (`case <-pause:
<-pause`) blocks solely on the `pause` channel, so in the `Paused` state
a `done` signal is not observed and the loop does not stop. -/
theorem C2_paused_ignores_shutdown_cex :
    gravityStep (.Paused 1000000000) .doneSignal ≠ (.Stopped, none) := by
  decide

/-- C2, amended: once a loop observes the shutdown signal it emits no
further byte and stops, and `Stopped` is absorbing for both loops; the
Gravity Driver transitions to `Stopped` on shutdown from `Ticking`, but
in `Paused` it does not observe shutdown at all — it waits solely for
the exit-pause signal, which returns it to `Ticking`. -/
theorem C2_shutdown_amended :
    (∀ r, gravityStep (.Ticking r) .doneSignal = (.Stopped, none)) ∧
    (∀ e, gravityStep .Stopped e = (.Stopped, none)) ∧
    (forwarderStep .Running .doneSignal = (.Stopped, none, false)) ∧
    (∀ e, forwarderStep .Stopped e = (.Stopped, none, false)) ∧
    (∀ r, gravityStep (.Paused r) .doneSignal = (.Paused r, none)) ∧
    (∀ r, gravityStep (.Paused r) .pauseSignal = (.Ticking r, none)) := by
  refine ⟨fun r => rfl, fun e => ?_, rfl, fun e => ?_, fun r => rfl, fun r => rfl⟩ <;>
    cases e <;> rfl

/-- C3: ESC followed (within the escape timeout) by `[` and then `A`,
`B`, `C` or `D` translates to rotate `i`, drop `k`, right `l`, left `j`
respectively; ESC followed by the 100 ms timeout firing with no byte
fails with end of input. -/
theorem C3_escape_sequences (rest : List InEv) :
    readKey (.byte 27 :: .byte 91 :: .byte 65 :: rest) = ⟨[], some (105, rest)⟩ ∧
    readKey (.byte 27 :: .byte 91 :: .byte 66 :: rest) = ⟨[], some (107, rest)⟩ ∧
    readKey (.byte 27 :: .byte 91 :: .byte 67 :: rest) = ⟨[], some (108, rest)⟩ ∧
    readKey (.byte 27 :: .byte 91 :: .byte 68 :: rest) = ⟨[], some (106, rest)⟩ ∧
    readKey (.byte 27 :: .timeout :: rest) = ⟨[], none⟩ := by
  refine ⟨?_, ?_, ?_, ?_, ?_⟩ <;> simp [readKey, escResult, readByte]

/-- C4: the alias table, a pure function of the single input byte:
`i`/`w` → `i` (rotate), `j`/`a` → `j` (left), `k`/`s` → `k` (drop),
`l`/`d` → `l` (right), whatever the rest of the stream holds, with no
pause signal raised. -/
theorem C4_alias_table (rest : List InEv) :
    readKey (.byte 105 :: rest) = ⟨[], some (105, rest)⟩ ∧
    readKey (.byte 119 :: rest) = ⟨[], some (105, rest)⟩ ∧
    readKey (.byte 106 :: rest) = ⟨[], some (106, rest)⟩ ∧
    readKey (.byte 97 :: rest) = ⟨[], some (106, rest)⟩ ∧
    readKey (.byte 107 :: rest) = ⟨[], some (107, rest)⟩ ∧
    readKey (.byte 115 :: rest) = ⟨[], some (107, rest)⟩ ∧
    readKey (.byte 108 :: rest) = ⟨[], some (108, rest)⟩ ∧
    readKey (.byte 100 :: rest) = ⟨[], some (108, rest)⟩ := by
  refine ⟨?_, ?_, ?_, ?_, ?_, ?_, ?_, ?_⟩ <;> simp [readKey]

/-- Unfolding `runForwarder` on a successful `readKey`. -/
theorem runForwarder_cons {input : List InEv} {k : Byte} {rest : List InEv}
    (h : (readKey input).res = some (k, rest)) :
    runForwarder input = (k :: (runForwarder rest).1, (runForwarder rest).2) := by
  rw [runForwarder]
  split
  · rename_i heq
    rw [h] at heq
    cases heq
  · rename_i k' rest' heq
    rw [h] at heq
    obtain ⟨rfl, rfl⟩ : k = k' ∧ rest = rest' := by simpa using heq
    rfl

/-- Unfolding `runForwarder` on a failing `readKey`: the goroutine
writes the final ESC and signals `done`. -/
theorem runForwarder_fail {input : List InEv}
    (h : (readKey input).res = none) :
    runForwarder input = ([27], true) := by
  rw [runForwarder]
  split
  · rfl
  · rename_i k' rest' heq
    rw [h] at heq
    cases heq

/-- Unfolding `readKey` on a pause byte whose discard sub-loop finds the
matching pause byte, leaving `rest`. -/
theorem readKey_pause_some {p : Byte} (hp : p = 112 ∨ p = 32)
    {l rest : List InEv} (hd : discardUntilPause l = some rest) :
    readKey (.byte p :: l) =
      ⟨true :: false :: (readKey rest).sigs, (readKey rest).res⟩ := by
  rcases hp with rfl | rfl
  case inl =>
    simp [readKey]
    split
    · rename_i heq
      rw [hd] at heq
      cases heq
    · rename_i rest' heq
      rw [hd] at heq
      obtain ⟨rfl⟩ : rest = rest' := by simpa using heq
      simp
  case inr =>
    simp [readKey]
    split
    · rename_i heq
      rw [hd] at heq
      cases heq
    · rename_i rest' heq
      rw [hd] at heq
      obtain ⟨rfl⟩ : rest = rest' := by simpa using heq
      simp

/-- Unfolding `readKey` on a pause byte whose discard sub-loop hits a
read failure: the failure propagates, with only enter-pause raised. -/
theorem readKey_pause_fail {p : Byte} (hp : p = 112 ∨ p = 32)
    {l : List InEv} (hd : discardUntilPause l = none) :
    readKey (.byte p :: l) = ⟨[true], none⟩ := by
  rcases hp with rfl | rfl
  case inl =>
    simp [readKey]
    split
    · rfl
    · rename_i rest' heq
      rw [hd] at heq
      cases heq
  case inr =>
    simp [readKey]
    split
    · rfl
    · rename_i rest' heq
      rw [hd] at heq
      cases heq

/-- C5: each quit alias (`q`, NUL, ETX, EOT, SUB) makes the translator
fail with end of input; on any translator failure the forwarding
goroutine emits the best-effort final quit byte ESC (27) as its last
byte, signals global shutdown, and stops; and on input `w j s d q` with
no delays the emitted command sequence is `i j k l` followed by ESC. -/
theorem C5_quit_aliases_final_esc :
    (∀ rest : List InEv, readKey (.byte 113 :: rest) = ⟨[], none⟩) ∧
    (∀ rest : List InEv, readKey (.byte 0 :: rest) = ⟨[], none⟩) ∧
    (∀ rest : List InEv, readKey (.byte 3 :: rest) = ⟨[], none⟩) ∧
    (∀ rest : List InEv, readKey (.byte 4 :: rest) = ⟨[], none⟩) ∧
    (∀ rest : List InEv, readKey (.byte 26 :: rest) = ⟨[], none⟩) ∧
    (∀ input : List InEv, (runForwarder input).1.getLast? = some 27 ∧
      (runForwarder input).2 = true) ∧
    runForwarder [.byte 119, .byte 106, .byte 115, .byte 100, .byte 113] =
      ([105, 106, 107, 108, 27], true) := by
  refine ⟨?_, ?_, ?_, ?_, ?_, ?_, ?_⟩
  · intro rest; simp [readKey]
  · intro rest; simp [readKey]
  · intro rest; simp [readKey]
  · intro rest; simp [readKey]
  · intro rest; simp [readKey]
  · exact fun input => ⟨(runForwarder_spec input).2.2, (runForwarder_spec input).2.1⟩
  · have h1 : (readKey [InEv.byte 119, .byte 106, .byte 115, .byte 100, .byte 113]).res =
        some (105, [.byte 106, .byte 115, .byte 100, .byte 113]) := by simp [readKey]
    have h2 : (readKey [InEv.byte 106, .byte 115, .byte 100, .byte 113]).res =
        some (106, [.byte 115, .byte 100, .byte 113]) := by simp [readKey]
    have h3 : (readKey [InEv.byte 115, .byte 100, .byte 113]).res =
        some (107, [.byte 100, .byte 113]) := by simp [readKey]
    have h4 : (readKey [InEv.byte 100, .byte 113]).res = some (108, [.byte 113]) := by
      simp [readKey]
    have h5 : (readKey [InEv.byte 113]).res = none := by simp [readKey]
    rw [runForwarder_cons h1, runForwarder_cons h2, runForwarder_cons h3,
      runForwarder_cons h4, runForwarder_fail h5]

/-- C6: on input `p`/space, then bytes of which none is `p` or space,
then `p`/space: the translator raises enter-pause on the first pause
byte, discards every intermediate byte producing no command for them,
raises exit-pause on the matching pause byte, and resumes normal
translation on the remaining stream.  A read failure during the discard
sub-loop propagates as the translator's failure (only enter-pause
raised). -/
theorem C6_pause_roundtrip (p1 p2 : Byte) (hp1 : p1 = 112 ∨ p1 = 32)
    (hp2 : p2 = 112 ∨ p2 = 32) (mid rest : List InEv)
    (hmid : ∀ e ∈ mid, nonPauseEv e) :
    readKey (.byte p1 :: (mid ++ .byte p2 :: rest)) =
      ⟨true :: false :: (readKey rest).sigs, (readKey rest).res⟩ ∧
    readKey (.byte p1 :: mid) = ⟨[true], none⟩ :=
  ⟨readKey_pause_some hp1 (discardUntilPause_append hmid hp2 rest),
   readKey_pause_fail hp1 (discardUntilPause_none hmid)⟩

/-- C6 witness: `p`, then `x`, then space, then `i`. -/
theorem C6_pause_roundtrip_witness :
    readKey [.byte 112, .byte 120, .byte 32, .byte 105] =
      ⟨true :: false :: (readKey [InEv.byte 105]).sigs,
       (readKey [InEv.byte 105]).res⟩ ∧
    readKey [.byte 112, .byte 120] = ⟨[true], none⟩ :=
  C6_pause_roundtrip 112 32 (Or.inl rfl) (Or.inr rfl)
    [.byte 120] [.byte 105]
    (by intro e he; simp at he; subst he; simp [nonPauseEv])

/-- C7: `writeByte` returns true with no logging and no shutdown signal
on success; on a broken-pipe failure (`*os.PathError` wrapping EPIPE)
it logs nothing, signals shutdown and returns false; on any other
failure it logs to stderr, signals shutdown and returns false. -/
theorem C7_write_error_classification :
    writeByte none = (true, false, false) ∧
    writeByte (some (.pathError EPIPE)) = (false, false, true) ∧
    (∀ errno : Nat, errno ≠ EPIPE →
      writeByte (some (.pathError errno)) = (false, true, true)) ∧
    writeByte (some .other) = (false, true, true) := by
  refine ⟨rfl, rfl, fun errno h => ?_, rfl⟩
  simp [writeByte, h]

/-- C7 witness: a `PathError` wrapping errno 5 (EIO) is logged. -/
theorem C7_write_error_classification_witness :
    (5 : Nat) ≠ EPIPE ∧ writeByte (some (.pathError 5)) = (false, true, true) :=
  ⟨by decide, C7_write_error_classification.2.2.1 5 (by decide)⟩

/-- C8: every byte delivered to stdout is in the five-byte wire
alphabet: whatever the input stream, every byte the forwarding
goroutine emits passes `wireAlphabet`, and every gravity-loop step
delivers either nothing or a byte in the alphabet (it only ever writes
`'k'`). -/
theorem C8_wire_alphabet_only :
    (∀ input : List InEv, (runForwarder input).1.all wireAlphabet = true) ∧
    (∀ (s : GState) (e : GEvent), emitOK (gravityStep s e).2 = true) := by
  constructor
  · exact fun input => (runForwarder_spec input).1
  · intro s e
    cases s <;> cases e <;>
      first
        | rfl
        | (simp only [gravityStep]; split <;> rfl)

/-- C9: ESC followed within the timeout by any byte other than `[`
(including the case where the concurrent read fails at once because the
stream is exhausted) makes the translator fail with end of input. -/
theorem C9_esc_non_bracket_quits (b : Byte) (rest : List InEv) (hb : b ≠ 91) :
    readKey (.byte 27 :: .byte b :: rest) = ⟨[], none⟩ ∧
    readKey [.byte 27] = ⟨[], none⟩ := by
  constructor
  · have he : escResult (.byte b :: rest) = .inl ⟨[], none⟩ := by
      simp [escResult, hb]
    simp [readKey]
    split
    · rename_i r heq
      rw [he] at heq
      injection heq with h'
      exact h'.symm
    · rename_i rest3 heq
      rw [he] at heq
      cases heq
  · simp [readKey, escResult]

/-- C9 witness: ESC then `x`. -/
theorem C9_esc_non_bracket_quits_witness :
    readKey [.byte 27, .byte 120] = ⟨[], none⟩ ∧
    readKey [.byte 27] = ⟨[], none⟩ :=
  C9_esc_non_bracket_quits 120 [] (by decide)

/-- C10: a successful translation always returns one of `i j k l`, and
any byte outside the alias, quit, pause and ESC sets is consumed and
silently discarded: `readKey` continues on the remaining stream as if
the byte had not been there, emitting nothing for it. -/
theorem C10_translator_invariant :
    (∀ (l : List InEv) (k : Byte) (rest : List InEv),
      (readKey l).res = some (k, rest) →
        k = 105 ∨ k = 106 ∨ k = 107 ∨ k = 108) ∧
    (∀ (b : Byte) (rest : List InEv),
      ¬(b = 105 ∨ b = 119) → ¬(b = 106 ∨ b = 97) → ¬(b = 107 ∨ b = 115) →
      ¬(b = 108 ∨ b = 100) → ¬(b = 113 ∨ b = 0 ∨ b = 3 ∨ b = 4 ∨ b = 26) →
      ¬(b = 112 ∨ b = 32) → ¬(b = 27) →
      readKey (.byte b :: rest) = readKey rest) := by
  constructor
  · exact fun l k rest h => (readKey_res_spec l h).2
  · intro b rest h1 h2 h3 h4 h5 h6 h7
    simp [readKey, h1, h2, h3, h4, h5, h6, h7]

/-- C10 witness: the successful translation of `w`, and the byte `x`
(120) being discarded before it. -/
theorem C10_translator_invariant_witness :
    ((105 : Byte) = 105 ∨ (105 : Byte) = 106 ∨ (105 : Byte) = 107 ∨
      (105 : Byte) = 108) ∧
    readKey [.byte 120, .byte 119] = readKey [.byte 119] :=
  ⟨C10_translator_invariant.1 [.byte 119] 105 [] (by simp [readKey]),
   C10_translator_invariant.2 120 [.byte 119] (by decide) (by decide)
     (by decide) (by decide) (by decide) (by decide) (by decide)⟩

end Tetrisrun
